import Mathlib

/-!
Shallow embedding of the Discord AI bot orchestrator
(`discord-ai-bot/ai-agent/bot.py`): the MCP RPC client, the per-channel
conversation store with idempotent ingestion, and the polling loop.
Python dicts keyed by channel id become association lists, the processed
set becomes a duplicate-free list of composite keys, exceptions become
`Except`, and the two external JSON decodes (the response line and the
inner tool payload) are parameters of type `String → Option _` standing
for `json.loads`.
-/

/-- A Discord message as decoded from the tool payload: the fields the
bot reads are `id`, `author` and `content` (`bot.py` lines 175, 186, 217-231). -/
structure Message where
  id : String
  author : String
  content : String
deriving Repr, DecidableEq

/-- One element of the tool-call result's `content` list; its `text`
field, when present, is the inner JSON string (`bot.py` lines 108, 119). -/
structure ContentItem where
  text : Option String
deriving Repr, DecidableEq

/-- The `result` object of a tool call; the `content` list may be absent,
in which case the code supplies the default `[\x7b\x7d]` (`bot.py` line 108). -/
structure ToolResult where
  content : Option (List ContentItem)
deriving Repr, DecidableEq

/-- The decoded inner payload of `read_discord_messages`: a JSON object
whose `messages` key may be absent (`bot.py` line 110). -/
structure MessagesPayload where
  messages : Option (List Message)
deriving Repr, DecidableEq

/-- A channel record of `list_discord_channels` (`bot.py` line 251). -/
structure ChannelInfo where
  id : String
  name : String
  guild : String
deriving Repr, DecidableEq

/-- The decoded inner payload of `list_discord_channels` (`bot.py` line 121). -/
structure ChannelsPayload where
  channels : Option (List ChannelInfo)
deriving Repr, DecidableEq

/-- The decoded JSON-RPC response line: an `error` field and a `result`
field, each possibly absent (`bot.py` lines 92-97). -/
structure RpcResponse where
  error : Option String
  result : Option ToolResult
deriving Repr, DecidableEq

/-- The exceptions the RPC layer can raise: `RuntimeError` when the server
was not started (line 78), `json.JSONDecodeError` from `json.loads`
(lines 92 and 109), `Exception` for a response carrying an `error` field
(line 95), and `IndexError` from indexing an empty `content` list (line 108). -/
inductive BotError
  | notStarted
  | jsonDecodeError
  | mcpError
  | indexError
deriving Repr, DecidableEq

/-- The bot configuration (`Config` dataclass, `bot.py` lines 15-23). -/
structure Config where
  model : String
  channels : List String
  trigger : String
  systemPrompt : String
  pollInterval : Nat := 3
  contextWindow : Nat := 8192
  maxHistory : Nat := 10
deriving Repr, DecidableEq

/-- The mutable bot state: `conversation_history` (a dict from channel id
to message list, modelled as an association list) and `processed_messages`
(a set of composite keys, modelled as a duplicate-free list)
(`bot.py` lines 128-129). -/
structure BotState where
  history : List (String × List Message)
  processed : List String
deriving Repr, DecidableEq

/-- The state built by `DiscordAIBot.__init__`: empty dict, empty set. -/
def initState : BotState := { history := [], processed := [] }

/-- The composite key of a message in a channel, Python
`f"\x7bchannel_id\x7d:\x7bmsg['id']\x7d"` (`bot.py` lines 175 and 218). -/
def compositeKey (ch : String) (msgId : String) : String :=
  ch ++ ":" ++ msgId

/-- Insertion into the processed set, Python `set.add`: a no-op when the
key is already present. -/
def addKey (k : String) (s : List String) : List String :=
  if k ∈ s then s else k :: s

/-- Dictionary lookup on the history association list. -/
def lookupHistory : List (String × List Message) → String → Option (List Message)
  | [], _ => none
  | (k, v) :: rest, ch => if k = ch then some v else lookupHistory rest ch

/-- The history list of a channel; a channel never seen has the empty
history (the code lazily creates the dict entry, `bot.py` lines 171-172). -/
def getHistory (st : BotState) (ch : String) : List Message :=
  (lookupHistory st.history ch).getD []

/-- Dictionary update on the history association list. -/
def updateAssoc : List (String × List Message) → String → List Message →
    List (String × List Message)
  | [], ch, v => [(ch, v)]
  | (k, w) :: rest, ch, v =>
    if k = ch then (k, v) :: rest else (k, w) :: updateAssoc rest ch v

/-- The loop body of `_build_context` (`bot.py` lines 174-178): if the
composite key is not in the processed set, append the message to the
channel's history and add the key; otherwise leave the state unchanged. -/
def ingestOne (ch : String) (st : BotState) (msg : Message) : BotState :=
  let key := compositeKey ch msg.id
  if key ∈ st.processed then st
  else
    { history := updateAssoc st.history ch (getHistory st ch ++ [msg]),
      processed := addKey key st.processed }

/-- The full ingestion loop over a fetched message window
(`bot.py` lines 174-178). -/
def ingest (ch : String) (st : BotState) (msgs : List Message) : BotState :=
  msgs.foldl (ingestOne ch) st

/-- One entry of the context passed to the generation backend. -/
structure ContextEntry where
  role : String
  content : String
deriving Repr, DecidableEq

/-- Rendering of a stored message as a context entry,
`\x7b'role': 'user', 'content': f"[\x7bmsg['author']\x7d]: \x7bmsg['content']\x7d"\x7d`
(`bot.py` lines 183-187). -/
def renderMessage (m : Message) : ContextEntry :=
  { role := "user", content := "[" ++ m.author ++ "]: " ++ m.content }

/-- `DiscordAIBot._build_context` (`bot.py` lines 170-190): ingest the
fetched window, then return the system entry followed by the entire stored
history of the channel, rendered; also returns the updated state. -/
def buildContext (systemPrompt ch : String) (st : BotState)
    (messages : List Message) : List ContextEntry × BotState :=
  let st' := ingest ch st messages
  ({ role := "system", content := systemPrompt } ::
      (getHistory st' ch).map renderMessage,
    st')

/-- `DiscordAIBot._generate_response` (`bot.py` lines 192-207): the
outcome of `ollama.chat` is a parameter; on success the reply text is
returned, on any exception the error string is returned instead of
propagating. -/
def generateResponse (gen : Except String String) : String :=
  match gen with
  | .ok r => r
  | .error e => "Error generating response: " ++ e

/-- `MCPClient._send_request` (`bot.py` lines 76-97): fail if the process
was never started; decode the response line with `json.loads` (the
`parseLine` parameter); raise if the decoded object has an `error` field;
otherwise return its `result` field, defaulting to the empty object. -/
def sendRequest (parseLine : String → Option RpcResponse) (started : Bool)
    (line : String) : Except BotError ToolResult :=
  if !started then .error .notStarted
  else
    match parseLine line with
    | none => .error .jsonDecodeError
    | some resp =>
      match resp.error with
      | some _ => .error .mcpError
      | none => .ok (resp.result.getD { content := none })

/-- `MCPClient.get_messages` (`bot.py` lines 104-110), from the tool-call
result onward: take `content`, defaulting to a one-element list holding
an empty object; index its first element (`IndexError` when the list is
present but empty); take `text`, defaulting to the string `"\x7b\x7d"`;
decode it with `json.loads` (the `parse` parameter, raising on failure);
finally take `messages`, defaulting to the empty list. -/
def getMessages (parse : String → Option MessagesPayload)
    (result : ToolResult) : Except BotError (List Message) :=
  match (result.content.getD [{ text := none }]).head? with
  | none => .error .indexError
  | some item =>
    match parse (item.text.getD "\x7b\x7d") with
    | none => .error .jsonDecodeError
    | some data => .ok (data.messages.getD [])

/-- `MCPClient.list_channels` (`bot.py` lines 117-121), same extraction
shape as `getMessages` with the `channels` key. -/
def listChannels (parse : String → Option ChannelsPayload)
    (result : ToolResult) : Except BotError (List ChannelInfo) :=
  match (result.content.getD [{ text := none }]).head? with
  | none => .error .indexError
  | some item =>
    match parse (item.text.getD "\x7b\x7d") with
    | none => .error .jsonDecodeError
    | some data => .ok (data.channels.getD [])

/-- The composition performed by `get_messages`: one `_send_request`
round-trip reading one line from the child, then the inner payload
extraction (`bot.py` lines 104-110). -/
def getMessagesRpc (parseLine : String → Option RpcResponse)
    (parse : String → Option MessagesPayload) (started : Bool)
    (line : String) : Except BotError (List Message) :=
  match sendRequest parseLine started line with
  | .error e => .error e
  | .ok result => getMessages parse result

/-- `MCPClient._next_id` (`bot.py` lines 72-74): increment the counter and
return the new value, paired with the new counter. -/
def nextId (requestId : Nat) : Nat × Nat :=
  (requestId + 1, requestId + 1)

/-- The three named operations that go through `call_tool`/`_send_request`
(`bot.py` lines 104-121). -/
inductive RpcOp
  | getMsgs
  | sendMsg
  | listChs
deriving Repr, DecidableEq

/-- Successive `_send_request` invocations each draw one id from the
counter, whichever named operation issued the call; returns each
operation paired with the id its request was sent with. -/
def assignIds : Nat → List RpcOp → List (RpcOp × Nat)
  | _, [] => []
  | r, op :: rest =>
    let p := nextId r
    (op, p.1) :: assignIds p.2 rest

/-- Python `str.startswith`, on the character sequence of the string. -/
def strStartsWith (s pre : String) : Bool :=
  pre.data.isPrefixOf s.data

/-- Python slicing `s[n:]`: the characters of `s` from index `n` on. -/
def strDrop (s : String) (n : Nat) : String :=
  { data := s.data.drop n }

/-- Python `str.strip()`: remove leading and trailing whitespace
characters. -/
def strTrim (s : String) : String :=
  { data := ((s.data.dropWhile Char.isWhitespace).reverse.dropWhile
      Char.isWhitespace).reverse }

/-- The outcome of one `_process_channel` call, mirroring its early
returns and the final exception handler (`bot.py` lines 209-240). -/
inductive ProcOutcome
  | cycleError
  | noMessages
  | alreadyProcessed
  | notTriggered
  | replied (context : List ContextEntry) (response : String)
deriving Repr, DecidableEq

/-- `DiscordAIBot._process_channel` (`bot.py` lines 209-240). The fetch
outcome and the generation outcome are parameters. Returns the new state,
the list of messages sent through `send_message` (channel, text), and the
outcome. An erroring fetch is caught by the blanket handler at lines
239-240 (`cycleError`); generation never raises (`generateResponse`). -/
def processChannel (cfg : Config) (ch : String) (st : BotState)
    (fetch : Except BotError (List Message)) (gen : Except String String) :
    BotState × List (String × String) × ProcOutcome :=
  match fetch with
  | .error _ => (st, [], .cycleError)
  | .ok messages =>
    match messages.getLast? with
    | none => (st, [], .noMessages)
    | some last =>
      let key := compositeKey ch last.id
      if key ∈ st.processed then (st, [], .alreadyProcessed)
      else if !(strStartsWith last.content cfg.trigger) then
        ({ st with processed := addKey key st.processed }, [], .notTriggered)
      else
        let userMessage := strTrim (strDrop last.content cfg.trigger.length)
        let stripped : Message := { last with content := userMessage }
        let window := messages.dropLast ++ [stripped]
        let result := buildContext cfg.systemPrompt ch st window
        let response := generateResponse gen
        (result.2, [(ch, response)], .replied result.1 response)

/-- One pass of the polling loop over the configured channels
(`bot.py` lines 260-262): blank entries are skipped, the rest are
processed with their surrounding whitespace stripped; sent messages
accumulate across channels. -/
def runCycle (cfg : Config) (st : BotState)
    (fetch : String → Except BotError (List Message))
    (gen : String → Except String String) :
    BotState × List (String × String) :=
  cfg.channels.foldl
    (fun acc chRaw =>
      if (strTrim chRaw).data.isEmpty then acc
      else
        let r := processChannel cfg (strTrim chRaw) acc.1 (fetch (strTrim chRaw)) (gen (strTrim chRaw))
        (r.1, acc.2 ++ r.2.1))
    (st, [])

/-- The `while True` polling loop (`bot.py` lines 259-264), fuel-indexed:
performs one cycle per unit of fuel and counts the cycles performed. The
loop body has no exit besides exhausting the fuel, because every exception
inside a cycle is swallowed by `_process_channel`'s handler. -/
def runLoop (cfg : Config) (fetch : String → Except BotError (List Message))
    (gen : String → Except String String) : Nat → BotState → BotState × Nat
  | 0, st => (st, 0)
  | fuel + 1, st =>
    let c := runCycle cfg st fetch gen
    let r := runLoop cfg fetch gen fuel c.1
    (r.1, r.2 + 1)

/-- The bootstrap test of `run` (`bot.py` line 245):
`not self.config.channels or self.config.channels == ['']`. -/
def noChannelsConfigured (channels : List String) : Bool :=
  channels.isEmpty || channels == [""]

/-- Observable lifecycle events of `run` and `main`
(`bot.py` lines 242-284). -/
inductive RunEvent
  | listedChannels
  | enteredPolling
  | stoppedMcp
deriving Repr, DecidableEq

/-- How the `while True` loop ends (`bot.py` lines 266-268): a
`KeyboardInterrupt` caught by the `except` branch, or any other
exception or cancellation unwinding through the `finally` branch. -/
inductive LoopEnd
  | keyboardInterrupt
  | otherException
deriving Repr, DecidableEq

/-- The event trace of `DiscordAIBot.run` (`bot.py` lines 242-270): on the
bootstrap path the method lists the channels and returns at line 254,
before the try/finally block, so no stop event occurs; otherwise the
polling loop runs and the finally branch at lines 268-270 stops the MCP
server however the loop ended. -/
def runEvents (channels : List String) (_fin : LoopEnd) : List RunEvent :=
  if noChannelsConfigured channels then
    [.listedChannels]
  else
    [.enteredPolling, .stoppedMcp]

/-- The event trace of `main` (`bot.py` lines 273-284): `run`'s trace,
followed by the handler's extra stop when an exception propagated out of
`run` (only a non-KeyboardInterrupt loop end re-raises after `run`'s
finally branch; the bootstrap path returns normally). -/
def mainEvents (channels : List String) (fin : LoopEnd) : List RunEvent :=
  runEvents channels fin ++
    (if noChannelsConfigured channels then []
     else
       match fin with
       | .keyboardInterrupt => []
       | .otherException => [.stoppedMcp])

/-- The two operations that mutate the store: ingestion of a fetched
window by `_build_context` (`bot.py` lines 174-178) and marking a
non-triggering message processed without storing it
(`bot.py` line 224). -/
inductive StoreOp
  | ingestOp (ch : String) (msgs : List Message)
  | markOp (ch : String) (msgId : String)

/-- Application of one store operation to the state. -/
def applyOp (st : BotState) : StoreOp → BotState
  | .ingestOp ch msgs => ingest ch st msgs
  | .markOp ch msgId => { st with processed := addKey (compositeKey ch msgId) st.processed }

/-- Application of a sequence of store operations. -/
def applyOps (st : BotState) (ops : List StoreOp) : BotState :=
  ops.foldl applyOp st

/-- The store invariant: for every channel, the stored history has no two
entries with the same composite key, and every stored entry's composite
key is in the processed set. -/
def StoreInv (st : BotState) : Prop :=
  ∀ ch : String,
    ((getHistory st ch).map (fun m => compositeKey ch m.id)).Nodup ∧
    ∀ m ∈ getHistory st ch, compositeKey ch m.id ∈ st.processed

theorem mem_addKey {k x : String} {s : List String} :
    x ∈ addKey k s ↔ x = k ∨ x ∈ s := by
  unfold addKey
  by_cases h : k ∈ s
  · simp only [if_pos h]
    constructor
    · exact Or.inr
    · rintro (rfl | hx)
      · exact h
      · exact hx
  · simp [if_neg h]

theorem lookupHistory_updateAssoc (h : List (String × List Message))
    (ch ch' : String) (v : List Message) :
    lookupHistory (updateAssoc h ch v) ch' =
      if ch' = ch then some v else lookupHistory h ch' := by
  induction h with
  | nil =>
    by_cases e : ch' = ch
    · subst e; simp [updateAssoc, lookupHistory]
    · have e' : ¬(ch = ch') := fun hh => e hh.symm
      simp [updateAssoc, lookupHistory, e, e']
  | cons p rest ih =>
    obtain ⟨k, w⟩ := p
    by_cases hk : k = ch
    · subst hk
      by_cases e : ch' = k
      · subst e
        simp [updateAssoc, lookupHistory]
      · have e' : ¬(k = ch') := fun hh => e hh.symm
        simp [updateAssoc, lookupHistory, e, e']
    · by_cases e2 : k = ch'
      · subst e2
        have : ¬(k = ch) := hk
        simp [updateAssoc, lookupHistory, hk, this]
      · simp [updateAssoc, lookupHistory, hk, e2, ih]

theorem ingestOne_of_mem {ch0 : String} {st : BotState} {m : Message}
    (h : compositeKey ch0 m.id ∈ st.processed) : ingestOne ch0 st m = st := by
  unfold ingestOne
  simp [h]

theorem getHistory_ingestOne (ch0 : String) (st : BotState) (m : Message)
    (ch' : String) :
    getHistory (ingestOne ch0 st m) ch' =
      if compositeKey ch0 m.id ∈ st.processed then getHistory st ch'
      else if ch' = ch0 then getHistory st ch0 ++ [m]
      else getHistory st ch' := by
  by_cases h : compositeKey ch0 m.id ∈ st.processed
  · simp [ingestOne_of_mem h, h]
  · unfold ingestOne getHistory
    simp only [if_neg h]
    simp [lookupHistory_updateAssoc]
    by_cases e : ch' = ch0
    · subst e; simp [getHistory]
    · simp [e]

theorem processed_ingestOne (ch0 : String) (st : BotState) (m : Message) :
    (ingestOne ch0 st m).processed =
      if compositeKey ch0 m.id ∈ st.processed then st.processed
      else compositeKey ch0 m.id :: st.processed := by
  unfold ingestOne
  by_cases h : compositeKey ch0 m.id ∈ st.processed
  · simp [h]
  · simp [h, addKey]

theorem ingest_append (ch0 : String) (st : BotState) (xs ys : List Message) :
    ingest ch0 st (xs ++ ys) = ingest ch0 (ingest ch0 st xs) ys := by
  simp [ingest, List.foldl_append]

theorem mem_processed_ingest (ch0 : String) (msgs : List Message) :
    ∀ (st : BotState) (k : String),
      k ∈ (ingest ch0 st msgs).processed ↔
        k ∈ st.processed ∨ ∃ m ∈ msgs, compositeKey ch0 m.id = k := by
  induction msgs with
  | nil => intro st k; simp [ingest]
  | cons m rest ih =>
    intro st k
    have step : ingest ch0 st (m :: rest) = ingest ch0 (ingestOne ch0 st m) rest := rfl
    rw [step, ih]
    rw [processed_ingestOne]
    by_cases h : compositeKey ch0 m.id ∈ st.processed
    · simp only [if_pos h]
      constructor
      · rintro (hk | ⟨m', hm', rfl⟩)
        · exact Or.inl hk
        · exact Or.inr ⟨m', List.mem_cons_of_mem _ hm', rfl⟩
      · rintro (hk | ⟨m', hm', rfl⟩)
        · exact Or.inl hk
        · rcases List.mem_cons.1 hm' with rfl | hm''
          · exact Or.inl h
          · exact Or.inr ⟨m', hm'', rfl⟩
    · simp only [if_neg h, List.mem_cons]
      constructor
      · rintro ((rfl | hk) | ⟨m', hm', rfl⟩)
        · exact Or.inr ⟨m, Or.inl rfl, rfl⟩
        · exact Or.inl hk
        · exact Or.inr ⟨m', Or.inr hm', rfl⟩
      · rintro (hk | ⟨m', rfl | hm', rfl⟩)
        · exact Or.inl (Or.inr hk)
        · exact Or.inl (Or.inl rfl)
        · exact Or.inr ⟨m', hm', rfl⟩

theorem mem_processed_of_mem_ingest {ch0 : String} {msgs : List Message}
    {m : Message} (hm : m ∈ msgs) (st : BotState) :
    compositeKey ch0 m.id ∈ (ingest ch0 st msgs).processed :=
  (mem_processed_ingest ch0 msgs st _).2 (Or.inr ⟨m, hm, rfl⟩)

theorem processed_mono_ingest (ch0 : String) (msgs : List Message)
    (st : BotState) {k : String} (hk : k ∈ st.processed) :
    k ∈ (ingest ch0 st msgs).processed :=
  (mem_processed_ingest ch0 msgs st k).2 (Or.inl hk)

theorem ingest_skip (ch0 : String) (msgs : List Message) :
    ∀ st : BotState, (∀ m ∈ msgs, compositeKey ch0 m.id ∈ st.processed) →
      ingest ch0 st msgs = st := by
  induction msgs with
  | nil => intro st _; rfl
  | cons m rest ih =>
    intro st h
    have hm := h m (List.mem_cons_self m rest)
    have step : ingest ch0 st (m :: rest) = ingest ch0 (ingestOne ch0 st m) rest := rfl
    rw [step, ingestOne_of_mem hm]
    exact ih st fun m' hm' => h m' (List.mem_cons_of_mem _ hm')

theorem StoreInv_ingestOne {st : BotState} (hInv : StoreInv st)
    (ch0 : String) (m : Message) : StoreInv (ingestOne ch0 st m) := by
  intro ch'
  rw [getHistory_ingestOne, processed_ingestOne]
  by_cases h : compositeKey ch0 m.id ∈ st.processed
  · simp only [if_pos h]
    exact hInv ch'
  · simp only [if_neg h]
    by_cases e : ch' = ch0
    · subst e
      simp only [eq_self_iff_true, if_true]
      constructor
      · rw [List.map_append, List.nodup_append_comm]
        simp only [List.map_cons, List.map_nil, List.singleton_append,
          List.nodup_cons]
        refine ⟨?_, (hInv ch').1⟩
        intro hmem
        rcases List.mem_map.1 hmem with ⟨m', hm', he⟩
        exact h (he ▸ (hInv ch').2 m' hm')
      · intro m' hm'
        rcases List.mem_append.1 hm' with h1 | h2
        · exact List.mem_cons_of_mem _ ((hInv ch').2 m' h1)
        · rcases List.mem_singleton.1 h2 with rfl
          exact List.mem_cons_self _ _
    · simp only [if_neg e]
      exact ⟨(hInv ch').1,
        fun m' hm' => List.mem_cons_of_mem _ ((hInv ch').2 m' hm')⟩

theorem StoreInv_ingest (ch0 : String) (msgs : List Message) :
    ∀ st : BotState, StoreInv st → StoreInv (ingest ch0 st msgs) := by
  induction msgs with
  | nil => intro st h; exact h
  | cons m rest ih =>
    intro st h
    exact ih (ingestOne ch0 st m) (StoreInv_ingestOne h ch0 m)

theorem getHistory_markOp (st : BotState) (k ch' : String) :
    getHistory { st with processed := addKey k st.processed } ch' =
      getHistory st ch' := rfl

theorem StoreInv_applyOp {st : BotState} (hInv : StoreInv st) (op : StoreOp) :
    StoreInv (applyOp st op) := by
  cases op with
  | ingestOp ch0 msgs => exact StoreInv_ingest ch0 msgs st hInv
  | markOp ch0 msgId =>
    intro ch'
    refine ⟨(hInv ch').1, fun m' hm' => ?_⟩
    exact mem_addKey.2 (Or.inr ((hInv ch').2 m' hm'))

theorem StoreInv_applyOps (ops : List StoreOp) :
    ∀ st : BotState, StoreInv st → StoreInv (applyOps st ops) := by
  induction ops with
  | nil => intro st h; exact h
  | cons op rest ih =>
    intro st h
    exact ih (applyOp st op) (StoreInv_applyOp h op)

theorem processed_mono_applyOp (st : BotState) (op : StoreOp) {k : String}
    (hk : k ∈ st.processed) : k ∈ (applyOp st op).processed := by
  cases op with
  | ingestOp ch0 msgs => exact processed_mono_ingest ch0 msgs st hk
  | markOp ch0 msgId => exact mem_addKey.2 (Or.inr hk)

theorem processed_mono_applyOps (ops : List StoreOp) :
    ∀ (st : BotState) {k : String}, k ∈ st.processed →
      k ∈ (applyOps st ops).processed := by
  induction ops with
  | nil => intro st k hk; exact hk
  | cons op rest ih =>
    intro st k hk
    exact ih (applyOp st op) (processed_mono_applyOp st op hk)

theorem getHistory_px_ingestOne (ch0 : String) (st : BotState) (m : Message)
    (ch' : String) :
    getHistory st ch' <+: getHistory (ingestOne ch0 st m) ch' := by
  rw [getHistory_ingestOne]
  split_ifs with h1 h2
  · exact ⟨[], by simp⟩
  · exact ⟨[m], by rw [h2]⟩
  · exact ⟨[], by simp⟩

theorem getHistory_px_ingest (ch0 : String) (msgs : List Message) :
    ∀ (st : BotState) (ch' : String),
      getHistory st ch' <+: getHistory (ingest ch0 st msgs) ch' := by
  induction msgs with
  | nil => intro st ch'; exact ⟨[], by simp [ingest]⟩
  | cons m rest ih =>
    intro st ch'
    exact (getHistory_px_ingestOne ch0 st m ch').trans
      (ih (ingestOne ch0 st m) ch')

theorem getHistory_px_applyOp (st : BotState) (op : StoreOp) (ch' : String) :
    getHistory st ch' <+: getHistory (applyOp st op) ch' := by
  cases op with
  | ingestOp ch0 msgs => exact getHistory_px_ingest ch0 msgs st ch'
  | markOp ch0 msgId => exact ⟨[], by simp [applyOp, getHistory]⟩

theorem getHistory_px_applyOps (ops : List StoreOp) :
    ∀ (st : BotState) (ch' : String),
      getHistory st ch' <+: getHistory (applyOps st ops) ch' := by
  induction ops with
  | nil => intro st ch'; exact ⟨[], by simp [applyOps]⟩
  | cons op rest ih =>
    intro st ch'
    exact (getHistory_px_applyOp st op ch').trans (ih (applyOp st op) ch')

theorem processed_mono_ingestOne (ch0 : String) (st : BotState) (m : Message)
    {k : String} (hk : k ∈ st.processed) : k ∈ (ingestOne ch0 st m).processed := by
  rw [processed_ingestOne]
  split_ifs
  · exact hk
  · exact List.mem_cons_of_mem _ hk

theorem key_notin_ingestOne {st : BotState} {k ch : String}
    (hk : k ∈ st.processed)
    (hnow : ∀ m ∈ getHistory st ch, compositeKey ch m.id ≠ k)
    (ch0 : String) (m0 : Message) :
    ∀ m ∈ getHistory (ingestOne ch0 st m0) ch, compositeKey ch m.id ≠ k := by
  rw [getHistory_ingestOne]
  split_ifs with h1 h2
  · exact hnow
  · subst h2
    intro m hm
    rcases List.mem_append.1 hm with hold | hnew
    · exact hnow m hold
    · rcases List.mem_singleton.1 hnew with rfl
      intro he
      exact h1 (by rw [he]; exact hk)
  · exact hnow

theorem key_notin_ingest (ch0 : String) (msgs : List Message) :
    ∀ (st : BotState) {k ch : String}, k ∈ st.processed →
      (∀ m ∈ getHistory st ch, compositeKey ch m.id ≠ k) →
      ∀ m ∈ getHistory (ingest ch0 st msgs) ch, compositeKey ch m.id ≠ k := by
  induction msgs with
  | nil => intro st k ch _ hnow; exact hnow
  | cons m0 rest ih =>
    intro st k ch hk hnow
    exact ih (ingestOne ch0 st m0) (processed_mono_ingestOne ch0 st m0 hk)
      (key_notin_ingestOne hk hnow ch0 m0)

theorem key_notin_applyOp {st : BotState} {k ch : String}
    (hk : k ∈ st.processed)
    (hnow : ∀ m ∈ getHistory st ch, compositeKey ch m.id ≠ k) (op : StoreOp) :
    ∀ m ∈ getHistory (applyOp st op) ch, compositeKey ch m.id ≠ k := by
  cases op with
  | ingestOp ch0 msgs => exact key_notin_ingest ch0 msgs st hk hnow
  | markOp ch0 msgId => exact hnow

theorem key_notin_applyOps (ops : List StoreOp) :
    ∀ (st : BotState) {k ch : String}, k ∈ st.processed →
      (∀ m ∈ getHistory st ch, compositeKey ch m.id ≠ k) →
      ∀ m ∈ getHistory (applyOps st ops) ch, compositeKey ch m.id ≠ k := by
  induction ops with
  | nil => intro st k ch _ hnow; exact hnow
  | cons op rest ih =>
    intro st k ch hk hnow
    exact ih (applyOp st op) (processed_mono_applyOp st op hk)
      (key_notin_applyOp hk hnow op)

theorem window_take_subset (S : List Message) (a b m n : Nat) (hab : a ≤ b) :
    ∀ x ∈ ((S.drop b).take n).take (a + m - b), x ∈ (S.drop a).take m := by
  intro x hx
  by_cases hb : b ≤ a + m
  · have h1 : ((S.drop a).take m).drop (b - a) = (S.drop b).take (a + m - b) := by
      rw [List.drop_take, List.drop_drop]
      have e1 : a + (b - a) = b := by omega
      have e2 : m - (b - a) = a + m - b := by omega
      rw [e1, e2]
    have h2 : ((S.drop b).take n).take (a + m - b)
        = (((S.drop a).take m).drop (b - a)).take (min (a + m - b) n) := by
      rw [h1, List.take_take, List.take_take]
      congr 1
      omega
    rw [h2] at hx
    exact List.drop_subset _ _ (List.take_subset _ _ hx)
  · have h0 : a + m - b = 0 := by omega
    rw [h0, List.take_zero] at hx
    cases hx

theorem length_getHistory_ingest (ch : String) (msgs : List Message) :
    ∀ st : BotState,
      (getHistory (ingest ch st msgs) ch).length
        = (getHistory st ch).length
          + ((msgs.map (fun m => compositeKey ch m.id)).toFinset \
              st.processed.toFinset).card := by
  induction msgs with
  | nil => intro st; simp [ingest]
  | cons m rest ih =>
    intro st
    have step : ingest ch st (m :: rest) = ingest ch (ingestOne ch st m) rest := rfl
    rw [step, ih]
    by_cases h : compositeKey ch m.id ∈ st.processed
    · rw [ingestOne_of_mem h, List.map_cons, List.toFinset_cons,
        Finset.insert_sdiff_of_mem _ (List.mem_toFinset.2 h)]
    · rw [getHistory_ingestOne, processed_ingestOne]
      simp only [if_neg h, eq_self_iff_true, if_true]
      rw [List.length_append]
      simp only [List.length_singleton, List.map_cons, List.toFinset_cons]
      have hkP : compositeKey ch m.id ∉ st.processed.toFinset :=
        fun hc => h (List.mem_toFinset.1 hc)
      rw [Finset.sdiff_insert, Finset.insert_sdiff_of_not_mem _ hkP]
      by_cases hkR : compositeKey ch m.id ∈
          (rest.map (fun m => compositeKey ch m.id)).toFinset \ st.processed.toFinset
      · rw [Finset.card_erase_of_mem hkR, Finset.insert_eq_self.2 hkR]
        have hpos := Finset.card_pos.2 ⟨_, hkR⟩
        omega
      · rw [Finset.erase_eq_of_not_mem hkR, Finset.card_insert_of_not_mem hkR]
        omega

theorem storeInv_initState : StoreInv initState := by
  intro ch
  simp [StoreInv, getHistory, lookupHistory, initState]

/-- C1: for any channel, any base state satisfying the store invariant,
and any two fetch windows of the same underlying message sequence taken
in fetch order (the earlier window `W1 = S[a..a+m)` starts no later than
the later window `W2 = S[b..b+n)`, as successive fetches of a growing
sequence with a fixed limit always satisfy), ingesting W1 then W2 leaves
exactly the state of a single ingest of the union of the two windows in
arrival order (`W1` followed by the part of `W2` past the overlap), and
the resulting per-channel histories contain no two entries with the same
composite key. -/
theorem ingest_windows_union (S : List Message) (a b m n : Nat)
    (ch : String) (st : BotState) (hab : a ≤ b) (hInv : StoreInv st) :
    ingest ch (ingest ch st ((S.drop a).take m)) ((S.drop b).take n)
      = ingest ch st
          ((S.drop a).take m ++ ((S.drop b).take n).drop (a + m - b)) ∧
    ∀ ch' : String,
      ((getHistory (ingest ch (ingest ch st ((S.drop a).take m))
          ((S.drop b).take n)) ch').map
        (fun mm => compositeKey ch' mm.id)).Nodup := by
  constructor
  · have hsplit : (S.drop b).take n
        = ((S.drop b).take n).take (a + m - b)
            ++ ((S.drop b).take n).drop (a + m - b) :=
      (List.take_append_drop _ _).symm
    have hskip : ingest ch (ingest ch st ((S.drop a).take m))
        (((S.drop b).take n).take (a + m - b))
        = ingest ch st ((S.drop a).take m) :=
      ingest_skip ch _ _ fun x hx =>
        mem_processed_of_mem_ingest (window_take_subset S a b m n hab x hx) st
    calc ingest ch (ingest ch st ((S.drop a).take m)) ((S.drop b).take n)
        = ingest ch (ingest ch st ((S.drop a).take m))
            (((S.drop b).take n).take (a + m - b)
              ++ ((S.drop b).take n).drop (a + m - b)) := by rw [← hsplit]
      _ = ingest ch (ingest ch (ingest ch st ((S.drop a).take m))
            (((S.drop b).take n).take (a + m - b)))
            (((S.drop b).take n).drop (a + m - b)) := by rw [ingest_append]
      _ = ingest ch (ingest ch st ((S.drop a).take m))
            (((S.drop b).take n).drop (a + m - b)) := by rw [hskip]
      _ = ingest ch st
            ((S.drop a).take m ++ ((S.drop b).take n).drop (a + m - b)) :=
          (ingest_append ch st _ _).symm
  · intro ch'
    exact (StoreInv_ingest ch ((S.drop b).take n) _
      (StoreInv_ingest ch ((S.drop a).take m) st hInv) ch').1

/-- The concrete message sequence used by the witness of
`ingest_windows_union`. -/
def wMsgs : List Message :=
  [{ id := "1", author := "a", content := "x" },
   { id := "2", author := "b", content := "y" },
   { id := "3", author := "c", content := "z" }]

/-- Witness for `ingest_windows_union` at the overlapping windows
`S[0..2)` and `S[1..3)` of a three-message sequence, from the initial
state. -/
theorem ingest_windows_union_witness :
    ((0 : Nat) ≤ 1 ∧ StoreInv initState) ∧
    (ingest "c" (ingest "c" initState ((wMsgs.drop 0).take 2))
        ((wMsgs.drop 1).take 2)
      = ingest "c" initState
          ((wMsgs.drop 0).take 2 ++ ((wMsgs.drop 1).take 2).drop (0 + 2 - 1)) ∧
     ∀ ch' : String,
      ((getHistory (ingest "c" (ingest "c" initState ((wMsgs.drop 0).take 2))
          ((wMsgs.drop 1).take 2)) ch').map
        (fun mm => compositeKey ch' mm.id)).Nodup) :=
  ⟨⟨Nat.zero_le 1, storeInv_initState⟩,
   ingest_windows_union wMsgs 0 1 2 2 "c" initState (Nat.zero_le 1)
     storeInv_initState⟩

/-- C2: after any sequence of ingest and mark-processed-without-storing
operations from a state satisfying the store invariant, the invariant
still holds (in particular every stored message's composite key is in the
processed set), the processed set only grows, every channel's history only
grows (the old history is a prefix of the new one), and one ingestion step
appends the message together with its key exactly when the key was absent
from the processed set, and does nothing at all otherwise. -/
theorem store_invariant (st : BotState) (ops : List StoreOp)
    (hInv : StoreInv st) :
    StoreInv (applyOps st ops) ∧
    (∀ k ∈ st.processed, k ∈ (applyOps st ops).processed) ∧
    (∀ ch : String, getHistory st ch <+: getHistory (applyOps st ops) ch) ∧
    (∀ (ch : String) (m : Message), compositeKey ch m.id ∉ st.processed →
      ingestOne ch st m
        = { history := updateAssoc st.history ch (getHistory st ch ++ [m]),
            processed := compositeKey ch m.id :: st.processed }) ∧
    (∀ (ch : String) (m : Message), compositeKey ch m.id ∈ st.processed →
      ingestOne ch st m = st) := by
  refine ⟨StoreInv_applyOps ops st hInv,
    fun k hk => processed_mono_applyOps ops st hk,
    fun ch => getHistory_px_applyOps ops st ch,
    ?_, fun ch m h => ingestOne_of_mem h⟩
  intro ch m h
  unfold ingestOne
  simp [h, addKey]

/-- The concrete operation sequence used by the witness of
`store_invariant`. -/
def wOps : List StoreOp :=
  [StoreOp.ingestOp "c" [{ id := "1", author := "a", content := "hi" }],
   StoreOp.markOp "c" "2"]

/-- Witness for `store_invariant` at a concrete two-operation sequence
from the initial state. -/
theorem store_invariant_witness :
    StoreInv initState ∧
    (StoreInv (applyOps initState wOps) ∧
     (∀ k ∈ initState.processed, k ∈ (applyOps initState wOps).processed) ∧
     (∀ ch : String,
        getHistory initState ch <+: getHistory (applyOps initState wOps) ch) ∧
     (∀ (ch : String) (m : Message),
        compositeKey ch m.id ∉ initState.processed →
        ingestOne ch initState m
          = { history := updateAssoc initState.history ch
                (getHistory initState ch ++ [m]),
              processed := compositeKey ch m.id :: initState.processed }) ∧
     (∀ (ch : String) (m : Message),
        compositeKey ch m.id ∈ initState.processed →
        ingestOne ch initState m = initState)) :=
  ⟨storeInv_initState, store_invariant initState wOps storeInv_initState⟩

theorem ingest_flatten (ch : String) (batches : List (List Message)) :
    ∀ st : BotState,
      batches.foldl (fun s w => ingest ch s w) st
        = ingest ch st batches.flatten := by
  induction batches with
  | nil => intro st; rfl
  | cons w rest ih =>
    intro st
    simp only [List.foldl_cons, List.flatten_cons]
    rw [ih (ingest ch st w), ← ingest_append]

/-- C4: every `buildContext` call returns the system-prompt entry followed
by every message stored for the channel in storage order, rendered as an
attributed line, hence exactly 1 + (history length) entries; and starting
from the initial state, after any sequence of `buildContext` calls the
history holds exactly one entry per distinct composite key ever ingested
for the channel — no truncation or summarization at any history length. -/
theorem buildContext_full_history (sp ch : String) :
    (∀ (st : BotState) (msgs : List Message),
      (buildContext sp ch st msgs).1
        = { role := "system", content := sp } ::
            (getHistory ((buildContext sp ch st msgs).2) ch).map renderMessage ∧
      (buildContext sp ch st msgs).1.length
        = 1 + (getHistory ((buildContext sp ch st msgs).2) ch).length) ∧
    (∀ batches : List (List Message),
      (buildContext sp ch
          (batches.foldl (fun s w => (buildContext sp ch s w).2) initState)
          []).1.length
        = 1 + ((batches.flatten.map (fun m => compositeKey ch m.id)).toFinset).card) := by
  constructor
  · intro st msgs
    exact ⟨rfl, by simp [buildContext]; omega⟩
  · intro batches
    have hfold : batches.foldl (fun s w => (buildContext sp ch s w).2) initState
        = ingest ch initState batches.flatten :=
      ingest_flatten ch batches initState
    rw [hfold]
    have hlen : (buildContext sp ch (ingest ch initState batches.flatten) []).1.length
        = 1 + (getHistory (ingest ch initState batches.flatten) ch).length := by
      simp [buildContext, ingest]
      omega
    rw [hlen, length_getHistory_ingest]
    simp [initState, getHistory, lookupHistory]

theorem assignIds_snd (ops : List RpcOp) :
    ∀ r : Nat, (assignIds r ops).map Prod.snd
      = (List.range ops.length).map (fun i => i + r + 1) := by
  induction ops with
  | nil => intro r; rfl
  | cons op rest ih =>
    intro r
    simp only [assignIds, nextId, List.map_cons, List.length_cons]
    rw [ih (r + 1), List.range_succ_eq_map, List.map_cons, List.map_map]
    congr 1
    · omega
    · apply List.map_congr_left
      intro i _
      simp only [Function.comp_apply]
      omega

/-- C5: with the counter starting at 0 as in `MCPClient.__init__`, the
n-th `call` of a process lifetime is sent with request id n, whichever of
the three named operations issued it: the assigned ids are exactly
1, 2, ..., length — strictly increasing from 1, no gaps, no reuse. -/
theorem rpc_ids_monotone (ops : List RpcOp) :
    (assignIds 0 ops).map Prod.snd
      = (List.range ops.length).map (fun i => i + 1) ∧
    ((assignIds 0 ops).map Prod.snd).Pairwise (· < ·) ∧
    ∀ i : Nat, ((assignIds 0 ops).map Prod.snd)[i]?
      = if i < ops.length then some (i + 1) else none := by
  have h' : (assignIds 0 ops).map Prod.snd
      = (List.range ops.length).map (fun i => i + 1) := by
    rw [assignIds_snd ops 0]
  refine ⟨h', ?_, ?_⟩
  · rw [h']
    refine List.Pairwise.map _ ?_ (List.pairwise_lt_range ops.length)
    intro a b hab
    omega
  · intro i
    rw [h', List.getElem?_map]
    by_cases hi : i < ops.length
    · rw [List.getElem?_range hi]
      simp [hi]
    · have hle : ops.length ≤ i := le_of_not_lt hi
      rw [List.getElem?_eq_none (by simpa using hle)]
      simp [hi]

theorem compositeKey_inj {ch i1 i2 : String}
    (h : compositeKey ch i1 = compositeKey ch i2) : i1 = i2 := by
  unfold compositeKey at h
  have hd : (ch ++ ":" ++ i1).data = (ch ++ ":" ++ i2).data := by rw [h]
  simp only [String.data_append] at hd
  exact String.ext (List.append_cancel_left hd)

/-- C3: in a poll cycle whose fetch returned the window `msgs` with
most-recent message `last` not yet processed, if `last`'s content does not
start with the trigger then `_process_channel` only adds its composite key
to the processed set (no history changes, nothing sent), after which no
sequence of store operations can ever put a message with that composite
key into the channel's history — and since every later `buildContext`
output is exactly the system entry followed by the renders of that
history, the message never appears in any later `buildContext` output.
If the content does start with the trigger (and no earlier message of the
window shares its id), the message appears in this cycle's `buildContext`
output with the trigger prefix removed. -/
theorem trigger_filtering (cfg : Config) (ch : String) (st : BotState)
    (msgs : List Message) (last : Message) (gen : Except String String)
    (hlast : msgs.getLast? = some last)
    (hfresh : compositeKey ch last.id ∉ st.processed)
    (hInv : StoreInv st) :
    (strStartsWith last.content cfg.trigger = false →
      processChannel cfg ch st (.ok msgs) gen
        = ({ st with
              processed := addKey (compositeKey ch last.id) st.processed },
           [], .notTriggered) ∧
      (∀ ops : List StoreOp, ∀ m ∈ getHistory
          (applyOps { st with
            processed := addKey (compositeKey ch last.id) st.processed } ops) ch,
        compositeKey ch m.id ≠ compositeKey ch last.id) ∧
      (∀ (ops : List StoreOp) (sp : String) (w : List Message),
        (buildContext sp ch (applyOps { st with
            processed := addKey (compositeKey ch last.id) st.processed } ops) w).1
          = { role := "system", content := sp } ::
              (getHistory (applyOps { st with
                  processed := addKey (compositeKey ch last.id) st.processed }
                (ops ++ [StoreOp.ingestOp ch w])) ch).map renderMessage)) ∧
    (strStartsWith last.content cfg.trigger = true →
      (∀ m' ∈ msgs.dropLast, m'.id ≠ last.id) →
      ∃ ctx : List ContextEntry,
        (processChannel cfg ch st (.ok msgs) gen).2.2
          = .replied ctx (generateResponse gen) ∧
        { role := "user",
          content := "[" ++ last.author ++ "]: "
            ++ strTrim (strDrop last.content cfg.trigger.length) } ∈ ctx) := by
  constructor
  · intro hnot
    refine ⟨by simp [processChannel, hlast, hfresh, hnot], ?_, ?_⟩
    · intro ops
      refine key_notin_applyOps ops _ (mem_addKey.2 (Or.inl rfl)) ?_
      intro m hm he
      exact hfresh (he ▸ (hInv ch).2 m hm)
    · intro ops sp w
      have happ : applyOps { st with
          processed := addKey (compositeKey ch last.id) st.processed }
            (ops ++ [StoreOp.ingestOp ch w])
          = ingest ch (applyOps { st with
              processed := addKey (compositeKey ch last.id) st.processed } ops) w := by
        simp [applyOps, List.foldl_append, applyOp]
      rw [happ]
      rfl
  · intro htrig hsep
    refine ⟨(buildContext cfg.systemPrompt ch st
      (msgs.dropLast ++ [{ last with
        content := strTrim (strDrop last.content cfg.trigger.length) }])).1, ?_, ?_⟩
    · simp [processChannel, hlast, hfresh, htrig]
    · have hkey : compositeKey ch last.id ∉
          (ingest ch st msgs.dropLast).processed := by
        intro hmem
        rcases (mem_processed_ingest ch msgs.dropLast st _).1 hmem with h1 | ⟨m', hm', he⟩
        · exact hfresh h1
        · exact hsep m' hm' (compositeKey_inj he)
      have hsplit : ingest ch st (msgs.dropLast ++ [{ last with
          content := strTrim (strDrop last.content cfg.trigger.length) }])
          = ingestOne ch (ingest ch st msgs.dropLast) { last with
              content := strTrim (strDrop last.content cfg.trigger.length) } := by
        rw [ingest_append]
        rfl
      have hhist : { last with
          content := strTrim (strDrop last.content cfg.trigger.length) } ∈
          getHistory (ingest ch st (msgs.dropLast ++ [{ last with
            content := strTrim (strDrop last.content cfg.trigger.length) }])) ch := by
        rw [hsplit, getHistory_ingestOne]
        simp only [if_neg hkey, eq_self_iff_true, if_true]
        exact List.mem_append.2 (Or.inr (List.mem_singleton_self _))
      exact List.mem_cons_of_mem _
        (List.mem_map_of_mem renderMessage hhist)

/-- The concrete configuration used by the process-channel witnesses. -/
def wCfg : Config :=
  { model := "m", channels := ["c"], trigger := "!ai", systemPrompt := "sys" }

/-- Witness for `trigger_filtering` at a concrete one-message window whose
content does not start with the trigger (and, for the second branch, the
hypotheses hold vacuously). -/
theorem trigger_filtering_witness :
    (([({ id := "1", author := "alice", content := "hello" } : Message)].getLast?
        = some { id := "1", author := "alice", content := "hello" }) ∧
      compositeKey "c" "1" ∉ initState.processed ∧
      StoreInv initState) ∧
    (strStartsWith (Message.content { id := "1", author := "alice", content := "hello" })
        wCfg.trigger = false →
      processChannel wCfg "c" initState
          (.ok [{ id := "1", author := "alice", content := "hello" }]) (.ok "r")
        = ({ initState with
              processed := addKey (compositeKey "c" "1") initState.processed },
           [], .notTriggered) ∧
      (∀ ops : List StoreOp, ∀ m ∈ getHistory
          (applyOps { initState with
            processed := addKey (compositeKey "c" "1") initState.processed } ops) "c",
        compositeKey "c" m.id ≠ compositeKey "c" "1") ∧
      (∀ (ops : List StoreOp) (sp : String) (w : List Message),
        (buildContext sp "c" (applyOps { initState with
            processed := addKey (compositeKey "c" "1") initState.processed } ops) w).1
          = { role := "system", content := sp } ::
              (getHistory (applyOps { initState with
                  processed := addKey (compositeKey "c" "1") initState.processed }
                (ops ++ [StoreOp.ingestOp "c" w])) "c").map renderMessage)) := by
  refine ⟨⟨rfl, by decide, storeInv_initState⟩, ?_⟩
  exact (trigger_filtering wCfg "c" initState
    [{ id := "1", author := "alice", content := "hello" }]
    { id := "1", author := "alice", content := "hello" } (.ok "r")
    rfl (by decide) storeInv_initState).1

/-- C6: when a poll cycle reaches the generation step (the fetch
succeeded and the most-recent message is a fresh triggering one) and the
generation backend raises, the error is not propagated: the produced
response is the error string, which is sent as the reply to the same
channel, and the outcome is an ordinary reply — never the caught-exception
outcome — so the polling loop goes on to the next cycle. -/
theorem generation_failure_degraded (cfg : Config) (ch : String)
    (st : BotState) (msgs : List Message) (last : Message) (e : String)
    (hlast : msgs.getLast? = some last)
    (hfresh : compositeKey ch last.id ∉ st.processed)
    (htrig : strStartsWith last.content cfg.trigger = true) :
    (processChannel cfg ch st (.ok msgs) (.error e)).2.1
        = [(ch, "Error generating response: " ++ e)] ∧
    (∃ ctx : List ContextEntry,
      (processChannel cfg ch st (.ok msgs) (.error e)).2.2
        = .replied ctx ("Error generating response: " ++ e)) ∧
    (∀ gen : Except String String,
      (processChannel cfg ch st (.ok msgs) gen).2.2 ≠ .cycleError) := by
  refine ⟨by simp [processChannel, hlast, hfresh, htrig, generateResponse],
    ?_, ?_⟩
  · refine ⟨(buildContext cfg.systemPrompt ch st (msgs.dropLast ++
      [{ last with
          content := strTrim (strDrop last.content cfg.trigger.length) }])).1, ?_⟩
    simp [processChannel, hlast, hfresh, htrig, generateResponse]
  · intro gen
    simp [processChannel, hlast, hfresh, htrig]

/-- Witness for `generation_failure_degraded` at a concrete triggering
message with a failing backend. -/
theorem generation_failure_degraded_witness :
    (([({ id := "2", author := "bob", content := "!ai hi" } : Message)].getLast?
        = some { id := "2", author := "bob", content := "!ai hi" }) ∧
      compositeKey "c" "2" ∉ initState.processed ∧
      strStartsWith (Message.content
        { id := "2", author := "bob", content := "!ai hi" }) wCfg.trigger
        = true) ∧
    ((processChannel wCfg "c" initState
        (.ok [{ id := "2", author := "bob", content := "!ai hi" }])
        (.error "boom")).2.1
      = [("c", "Error generating response: " ++ "boom")] ∧
    (∃ ctx : List ContextEntry,
      (processChannel wCfg "c" initState
          (.ok [{ id := "2", author := "bob", content := "!ai hi" }])
          (.error "boom")).2.2
        = .replied ctx ("Error generating response: " ++ "boom")) ∧
    (∀ gen : Except String String,
      (processChannel wCfg "c" initState
          (.ok [{ id := "2", author := "bob", content := "!ai hi" }])
          gen).2.2 ≠ .cycleError)) :=
  ⟨⟨rfl, by decide, by decide⟩,
   generation_failure_degraded wCfg "c" initState
     [{ id := "2", author := "bob", content := "!ai hi" }]
     { id := "2", author := "bob", content := "!ai hi" } "boom"
     rfl (by decide) (by decide)⟩

theorem processChannel_fetch_error (cfg : Config) (ch : String)
    (st : BotState) (e : BotError) (gen : Except String String) :
    processChannel cfg ch st (.error e) gen = (st, [], .cycleError) := rfl

theorem runCycle_fetch_error (cfg : Config) (st : BotState)
    (fetch : String → Except BotError (List Message))
    (gen : String → Except String String)
    (herr : ∀ ch, ∃ e, fetch ch = .error e) :
    runCycle cfg st fetch gen = (st, []) := by
  unfold runCycle
  suffices h : ∀ (chs : List String) (acc : BotState × List (String × String)),
      chs.foldl (fun acc chRaw =>
        if (strTrim chRaw).data.isEmpty then acc
        else
          let r := processChannel cfg (strTrim chRaw) acc.1
            (fetch (strTrim chRaw)) (gen (strTrim chRaw))
          (r.1, acc.2 ++ r.2.1)) acc = acc by
    exact h cfg.channels (st, [])
  intro chs
  induction chs with
  | nil => intro acc; rfl
  | cons c rest ih =>
    intro acc
    simp only [List.foldl_cons]
    by_cases hc : (strTrim c).data.isEmpty
    · rw [if_pos hc]
      exact ih acc
    · rw [if_neg hc]
      obtain ⟨e, he⟩ := herr (strTrim c)
      rw [he]
      simp only [processChannel_fetch_error, List.append_nil]
      exact ih acc

theorem runLoop_full_when_erroring (cfg : Config)
    (fetch : String → Except BotError (List Message))
    (gen : String → Except String String)
    (herr : ∀ ch, ∃ e, fetch ch = .error e) :
    ∀ (fuel : Nat) (st : BotState),
      runLoop cfg fetch gen fuel st = (st, fuel) := by
  intro fuel
  induction fuel with
  | zero => intro st; rfl
  | succ n ih =>
    intro st
    simp only [runLoop]
    rw [runCycle_fetch_error cfg st fetch gen herr]
    simp [ih st]

/-- C7 (the claim does not hold of the code as written): when the child's
output stream closes, `readline` yields an empty line, `json.loads` fails
on it, and `_send_request` raises a decode error; but `_process_channel`
catches every exception, so with every fetch going through the closed
stream the polling loop performs all of its cycles with no state change
and never terminates early — the Orchestrator keeps polling the dead
process instead of shutting down the transport and terminating. -/
theorem closed_stream_keeps_polling (cfg : Config)
    (parseLine : String → Option RpcResponse)
    (parse : String → Option MessagesPayload)
    (gen : String → Except String String)
    (hclosed : parseLine "" = none) :
    getMessagesRpc parseLine parse true "" = .error .jsonDecodeError ∧
    ∀ (fuel : Nat) (st : BotState),
      runLoop cfg (fun _ => getMessagesRpc parseLine parse true "") gen fuel st
        = (st, fuel) := by
  have hfetch : getMessagesRpc parseLine parse true ""
      = .error .jsonDecodeError := by
    simp [getMessagesRpc, sendRequest, hclosed]
  exact ⟨hfetch,
    runLoop_full_when_erroring cfg _ gen fun _ => ⟨.jsonDecodeError, hfetch⟩⟩

/-- Witness for `closed_stream_keeps_polling` with a concrete decoder that
fails on the empty line. -/
theorem closed_stream_keeps_polling_witness :
    ((fun _ : String => (none : Option RpcResponse)) "" = none) ∧
    (getMessagesRpc (fun _ => none) (fun _ => none) true ""
        = .error .jsonDecodeError ∧
     ∀ (fuel : Nat) (st : BotState),
       runLoop wCfg (fun _ => getMessagesRpc (fun _ => none) (fun _ => none) true "")
         (fun _ => .ok "r") fuel st = (st, fuel)) :=
  ⟨rfl, closed_stream_keeps_polling wCfg (fun _ => none) (fun _ => none)
    (fun _ => .ok "r") rfl⟩

/-- C8 counterexample: a fetch whose tool-call result carries an inner
JSON string that fails to decode is not treated as an empty result —
`get_messages` raises the decode error instead of returning the empty
message list. -/
theorem inner_decode_error_counterexample :
    getMessages (fun _ => none)
        { content := some [{ text := some "not-json" }] }
      = .error .jsonDecodeError ∧
    getMessages (fun _ => none)
        { content := some [{ text := some "not-json" }] }
      ≠ .ok ([] : List Message) :=
  ⟨rfl, fun h => Except.noConfusion h⟩

/-- C8 (amended): a fetch whose tool-call result's inner JSON string
fails to decode makes `get_messages` raise a decode error; the
Orchestrator's per-channel handler catches it, so the poll cycle stays
alive with no state change and nothing sent — the same net effect on the
cycle as a fetch that returned no messages. -/
theorem inner_decode_error_keeps_cycle (cfg : Config) (ch : String)
    (st : BotState) (gen : Except String String)
    (parse : String → Option MessagesPayload) (result : ToolResult)
    (e : BotError) (hdec : getMessages parse result = .error e) :
    processChannel cfg ch st (getMessages parse result) gen
      = (st, [], .cycleError) ∧
    (processChannel cfg ch st (getMessages parse result) gen).1
      = (processChannel cfg ch st (.ok []) gen).1 ∧
    (processChannel cfg ch st (getMessages parse result) gen).2.1
      = (processChannel cfg ch st (.ok []) gen).2.1 := by
  rw [hdec]
  exact ⟨rfl, rfl, rfl⟩

/-- Witness for `inner_decode_error_keeps_cycle` at a concrete
undecodable inner payload. -/
theorem inner_decode_error_keeps_cycle_witness :
    (getMessages (fun _ => none) { content := some [{ text := some "xx" }] }
        = .error .jsonDecodeError) ∧
    (processChannel wCfg "c" initState
        (getMessages (fun _ => none) { content := some [{ text := some "xx" }] })
        (.ok "r")
      = (initState, [], .cycleError) ∧
     (processChannel wCfg "c" initState
        (getMessages (fun _ => none) { content := some [{ text := some "xx" }] })
        (.ok "r")).1
      = (processChannel wCfg "c" initState (.ok []) (.ok "r")).1 ∧
     (processChannel wCfg "c" initState
        (getMessages (fun _ => none) { content := some [{ text := some "xx" }] })
        (.ok "r")).2.1
      = (processChannel wCfg "c" initState (.ok []) (.ok "r")).2.1) :=
  ⟨rfl, inner_decode_error_keeps_cycle wCfg "c" initState (.ok "r")
    (fun _ => none) { content := some [{ text := some "xx" }] }
    .jsonDecodeError rfl⟩

/-- C9 (the claim does not hold of the code as written): on the
no-channels bootstrap path, `run` lists the visible channels and returns
before the try/finally block that stops the MCP server, and `main` only
stops it when an exception propagated out — so the process terminates
without the transport's `stop()` ever being invoked on that path, while
the polling paths do always reach the stop. -/
theorem bootstrap_path_skips_stop :
    RunEvent.stoppedMcp ∉ mainEvents [""] LoopEnd.keyboardInterrupt ∧
    RunEvent.stoppedMcp ∉ mainEvents [] LoopEnd.keyboardInterrupt ∧
    ∀ fin : LoopEnd, RunEvent.stoppedMcp ∈ mainEvents ["123"] fin := by
  refine ⟨by decide, by decide, ?_⟩
  intro fin
  cases fin <;> decide

/-- C10: when the tool-call result lacks the `content` list, or its first
element lacks the `text` field, the fetch-messages and list-channels
operations return the empty list — the absent payload defaults to the
empty JSON object, whose decode carries no `messages`/`channels` key —
rather than raising a decode error. -/
theorem missing_fields_empty_result
    (parseM : String → Option MessagesPayload)
    (parseC : String → Option ChannelsPayload)
    (hM : parseM "\x7b\x7d" = some { messages := none })
    (hC : parseC "\x7b\x7d" = some { channels := none }) :
    getMessages parseM { content := none } = .ok [] ∧
    (∀ rest : List ContentItem,
      getMessages parseM { content := some ({ text := none } :: rest) }
        = .ok []) ∧
    listChannels parseC { content := none } = .ok [] ∧
    (∀ rest : List ContentItem,
      listChannels parseC { content := some ({ text := none } :: rest) }
        = .ok []) := by
  refine ⟨?_, ?_, ?_, ?_⟩
  · simp [getMessages, hM]
  · intro rest
    simp [getMessages, hM]
  · simp [listChannels, hC]
  · intro rest
    simp [listChannels, hC]

/-- A concrete stand-in for `json.loads` on message payloads: decodes
exactly the empty JSON object. -/
def wParseM : String → Option MessagesPayload :=
  fun s => if s = "\x7b\x7d" then some { messages := none } else none

/-- A concrete stand-in for `json.loads` on channel payloads: decodes
exactly the empty JSON object. -/
def wParseC : String → Option ChannelsPayload :=
  fun s => if s = "\x7b\x7d" then some { channels := none } else none

/-- Witness for `missing_fields_empty_result` with the concrete decoders. -/
theorem missing_fields_empty_result_witness :
    (wParseM "\x7b\x7d" = some { messages := none } ∧
     wParseC "\x7b\x7d" = some { channels := none }) ∧
    (getMessages wParseM { content := none } = .ok [] ∧
     (∀ rest : List ContentItem,
       getMessages wParseM { content := some ({ text := none } :: rest) }
         = .ok []) ∧
     listChannels wParseC { content := none } = .ok [] ∧
     (∀ rest : List ContentItem,
       listChannels wParseC { content := some ({ text := none } :: rest) }
         = .ok [])) :=
  ⟨⟨by decide, by decide⟩,
   missing_fields_empty_result wParseM wParseC (by decide) (by decide)⟩
